import Mathlib

/-!
Verification of the Exercise Synchronization Engine of the CS learning
platform VS Code extension.

The definitions below are a shallow embedding of the TypeScript sources:

* `src/sync/file-sync-manager.ts`   (`FileSyncManager`: `trackLesson`,
  `stopWatching`, `queueSync`, `syncFile`, `sanitizeFileName`,
  `getFileExtension`)
* `src/managers/workspace-manager.ts` (`createExerciseFile`,
  `getDefaultBoilerplate`, `getCommentSyntax`, plus duplicated
  `sanitizeFileName` / `getFileExtension`, textually identical to the ones
  in the sync manager)
* `src/services/firebase-service.ts` (`getStudentAnswer`, `saveStudentAnswer`)
* the input metrics tracker (`InputMetricsTracker`:
  `handleDocumentChange`, `getAndReset`)

Modelling conventions:

* JavaScript `Map` and Firestore collections are association lists in
  insertion order; `Set` is a duplicate-free list.
* ISO-8601 timestamp strings (`new Date().toISOString()`) are modelled by
  their epoch-millisecond value (a `Nat`); `new Date(s).getTime()` is then
  the identity, which preserves all equalities and differences used here.
* `setTimeout` handles are consecutive numeric ids; a live (not yet fired,
  not cleared) timer is an entry of `liveTimers`.  `clearTimeout` removes
  the entry; note that `Map.clear()` on `pendingSaves` does *not*.
* the single-threaded event loop is modelled by a small-step relation whose
  steps are the maximal synchronous blocks between `await` suspension
  points of `syncFile`.
-/

namespace CSLP

/-- Lower-casing of ASCII letters, as performed by `String.toLowerCase` on
the ASCII file names and language names used by the extension. -/
def lowerStr (s : String) : String := String.mk (s.data.map Char.toLower)

/-- Characters kept verbatim by the regex `[^a-z0-9]+` of `sanitizeFileName`
(the input is lower-cased first). -/
def isLowerAlnum (c : Char) : Bool :=
  ('a' ≤ c && c ≤ 'z') || ('0' ≤ c && c ≤ '9')

/-- Collapse adjacent underscores; together with mapping every character
outside `[a-z0-9]` to `'_'`, this realises the global regex replacement
`replace(/[^a-z0-9]+/g, '_')`: a run of excluded characters becomes a run
of underscores, which is then collapsed to a single one. -/
def squashUnd : List Char → List Char
  | [] => []
  | [c] => [c]
  | a :: b :: rest =>
    if a = '_' && b = '_' then squashUnd (b :: rest)
    else a :: squashUnd (b :: rest)

/-- Trim of leading and trailing underscores, `replace(/^_+|_+$/g, '')`. -/
def trimUnd (l : List Char) : List Char :=
  ((l.dropWhile (· == '_')).reverse.dropWhile (· == '_')).reverse

/-- `sanitizeFileName` of `file-sync-manager.ts` (and, identically, of
`workspace-manager.ts`): lower-case, collapse every run of
non-alphanumeric characters to one `'_'`, trim leading/trailing `'_'`. -/
def sanitizeFileName (name : String) : String :=
  String.mk (trimUnd (squashUnd
    ((name.data.map Char.toLower).map (fun c => if isLowerAlnum c then c else '_'))))

/-- JavaScript `a || b` on strings: the empty string is falsy. -/
def jsOr (a b : String) : String := if a = "" then b else a

/-- JavaScript `a || b` where `a` is an optional string (`undefined` and
`''` are both falsy). -/
def jsOrOpt (a : Option String) (b : String) : String := jsOr (a.getD "") b

/-- `getFileExtension` of `file-sync-manager.ts` / `workspace-manager.ts`:
extension table with fallback `txt`. -/
def getFileExtension (language : String) : String :=
  let l := lowerStr language
  if l = "python" then "py"
  else if l = "java" then "java"
  else if l = "csharp" then "cs"
  else if l = "typescript" then "ts"
  else if l = "javascript" then "js"
  else "txt"

/-- `getCommentSyntax` of `workspace-manager.ts`: single-line comment
token table with fallback `#`. -/
def getCommentMarker (language : String) : String :=
  let l := lowerStr language
  if l = "python" then "#"
  else if l = "java" then "//"
  else if l = "csharp" then "//"
  else if l = "typescript" then "//"
  else if l = "javascript" then "//"
  else "#"

/-- Decimal digits of a natural number, most significant first — the
rendering performed by the template literal piece `${section.orderIndex}`.
Implemented with explicit fuel so it reduces definitionally. -/
def natCharsAux : Nat → Nat → List Char
  | 0, _ => []
  | f + 1, n =>
    if n < 10 then [Nat.digitChar n]
    else natCharsAux f (n / 10) ++ [Nat.digitChar (n % 10)]

/-- Decimal rendering of a natural number as a character list. -/
def natChars (n : Nat) : List Char := natCharsAux (n + 1) n

/-- Decimal rendering of a natural number as a string. -/
def natStr (n : Nat) : String := String.mk (natChars n)

/-! ### Association lists: JavaScript `Map` / `Set` -/

/-- `Map.get`: value at key, if present. -/
def alGet {β : Type} (k : String) (l : List (String × β)) : Option β :=
  (l.find? (fun p => p.1 == k)).map (·.2)

/-- `Map.set`: update in place, or append a fresh key at the end
(JavaScript maps preserve insertion order). -/
def alSet {β : Type} (k : String) (v : β) : List (String × β) → List (String × β)
  | [] => [(k, v)]
  | (k', v') :: t => if k' == k then (k, v) :: t else (k', v') :: alSet k v t

/-- `Map.delete`: remove the entry at a key. -/
def alDel {β : Type} (k : String) (l : List (String × β)) : List (String × β) :=
  l.filter (fun p => p.1 != k)

/-- `Set.add`: insert if absent. -/
def setAdd (x : String) (l : List String) : List String :=
  if l.contains x then l else x :: l

/-- Substring test, JavaScript `String.includes`. -/
def hasInfixChars (needle : List Char) : List Char → Bool
  | [] => needle.isEmpty
  | c :: rest => needle.isPrefixOf (c :: rest) || hasInfixChars needle rest

/-! ### Data model (`src/models.ts`, `part_007`) -/

/-- The `Section` interface (a lesson section; `type = "code"` sections are
exercises).  `stype` embeds the TypeScript field `type`. -/
structure Section' where
  id : String
  lessonId : String
  title : String
  content : String
  stype : String
  orderIndex : Nat
  language : Option String
  starterValue : Option String
deriving DecidableEq, Repr

/-- The `InputMetrics` interface: the telemetry snapshot produced by
`InputMetricsTracker.getAndReset`.  Timestamps are epoch milliseconds. -/
structure InputMetrics where
  keystrokeCount : Nat
  pasteCount : Nat
  pasteCharCount : Nat
  editDurationMs : Int
  charCount : Nat
  firstInputAt : Nat
  lastInputAt : Nat
deriving DecidableEq, Repr

/-- A document of the Firestore `studentAnswers` collection.  The
`StudentAnswer` interface has fields sectionId, lessonId, courseId, userId,
answer, type, createdAt, updatedAt.  Firestore documents are open maps, so
the model also carries an *optional* `inputMetrics` field: the extension's
interface declares no such field and, as shown below, `saveStudentAnswer`
never writes one; the field records what an update leaves untouched. -/
structure AnswerDoc where
  sectionId : String
  userId : String
  lessonId : String
  answer : String
  atype : String
  courseId : Option String
  createdAt : Nat
  updatedAt : Nat
  inputMetrics : Option InputMetrics
deriving DecidableEq, Repr

/-! ### `firebase-service.ts` -/

/-- `getStudentAnswer(sectionId, userId)`: Firestore query
`where sectionId == ∧ userId ==`; `null` on an empty snapshot, otherwise
`docs[0]`.  The collection is modelled in creation order, so `docs[0]` is
the first matching document. -/
def getStudentAnswer (store : List AnswerDoc) (sectionId userId : String) :
    Option AnswerDoc :=
  store.find? (fun d => d.sectionId == sectionId && d.userId == userId)

/-- JavaScript truthiness of the optional `courseId` argument:
`if (courseId) data.courseId = courseId` — `undefined` and `''` are falsy. -/
def jsTruthyOpt (c : Option String) : Option String :=
  match c with
  | some s => if s = "" then none else some s
  | none => none

/-- `saveStudentAnswer(sectionId, userId, lessonId, content, type, courseId)`:
look up the first document matching `(sectionId, userId)`; if found, update
*that* document in place, setting only `answer` and `updatedAt`; otherwise
`addDoc` a fresh document (appended, i.e. created last) carrying `lessonId`
and — when truthy — `courseId`.  `serverTimestamp()` is the `now` argument.
The call site in `syncFile` passes an extra `inputMetrics` argument that
this signature does not declare; at runtime it is simply dropped, which the
model reflects by `saveStudentAnswer` not taking or writing any metrics. -/
def saveStudentAnswer (store : List AnswerDoc)
    (sectionId userId lessonId content atype : String)
    (courseId : Option String) (now : Nat) : List AnswerDoc :=
  match store with
  | [] =>
    [{ sectionId := sectionId, userId := userId, lessonId := lessonId,
       answer := content, atype := atype, courseId := jsTruthyOpt courseId,
       createdAt := now, updatedAt := now, inputMetrics := none }]
  | d :: ds =>
    if d.sectionId = sectionId ∧ d.userId = userId then
      { d with answer := content, updatedAt := now } :: ds
    else
      d :: saveStudentAnswer ds sectionId userId lessonId content atype courseId now

/-! ### Path derivation -/

/-- Character-level body of the template literal
`` `exercise_${section.orderIndex}_${this.sanitizeFileName(section.title)}.${ext}` ``
with `ext = getFileExtension(section.language || 'python')`, as computed in
both `WorkspaceManager.createExerciseFile` and
`FileSyncManager.trackLesson`. -/
def exerciseFileNameChars (sec : Section') : List Char :=
  "exercise_".data ++ natChars sec.orderIndex ++
    '_' :: ((sanitizeFileName sec.title).data ++
      '.' :: (getFileExtension (jsOrOpt sec.language "python")).data)

/-- The derived exercise file name as a string. -/
def exerciseFileName (sec : Section') : String :=
  String.mk (exerciseFileNameChars sec)

/-! ### Materializer (`WorkspaceManager.createExerciseFile`) -/

/-- `getDefaultBoilerplate(language, title)`: comment header with the title,
then a TODO line, then a blank line. -/
def getDefaultBoilerplate (language title : String) : String :=
  let comment := getCommentMarker language
  comment ++ " Exercise: " ++ title ++ "\n" ++ comment ++
    " TODO: Implement your solution here\n\n"

/-- Content decision of `createExerciseFile`: the bytes found at the derived
path after materialization.  `existing` is the current local file content
(`none` when `fileExists` is false).  `studentAnswer` is non-null exactly
when a `userId` was supplied, the remote query found a record *and* its
`answer` field is truthy (`if (answer && answer.answer)` — the empty string
is falsy).  Precedence: student answer ▸ (no local file → starter or
boilerplate) ▸ preserve local. -/
def createExerciseFileContent (sec : Section') (userId : Option String)
    (store : List AnswerDoc) (existing : Option String) : String :=
  let studentAnswer : Option String :=
    match userId with
    | some uid =>
      match getStudentAnswer store sec.id uid with
      | some a => if a.answer = "" then none else some a.answer
      | none => none
    | none => none
  match studentAnswer with
  | some ans => ans
  | none =>
    match existing with
    | none =>
      let starterCode := jsOrOpt sec.starterValue ""
      if starterCode = "" then
        getDefaultBoilerplate (jsOrOpt sec.language "python") sec.title
      else starterCode
    | some localContent => localContent

/-! ### Input metrics tracker (`InputMetricsTracker`) -/

/-- The per-file accumulator record (`FileMetrics` of the tracker source).
Timestamps are epoch milliseconds, `null` is `none`. -/
structure FileMetricsAcc where
  keystrokeCount : Nat
  pasteCount : Nat
  pasteCharCount : Nat
  firstInputAt : Option Nat
  lastInputAt : Option Nat
deriving DecidableEq, Repr

/-- A fresh accumulator, as created by `getOrCreate`. -/
def freshAcc : FileMetricsAcc :=
  { keystrokeCount := 0, pasteCount := 0, pasteCharCount := 0,
    firstInputAt := none, lastInputAt := none }

/-- JavaScript regex class `\s` (White_Space plus BOM), by code point. -/
def jsIsSpace (c : Char) : Bool :=
  c == ' ' || c == '\t' || c == '\n' || c == '\r' ||
  c.toNat == 11 || c.toNat == 12 || c.toNat == 0xa0 || c.toNat == 0x1680 ||
  (0x2000 ≤ c.toNat && c.toNat ≤ 0x200a) || c.toNat == 0x2028 ||
  c.toNat == 0x2029 || c.toNat == 0x202f || c.toNat == 0x205f ||
  c.toNat == 0x3000 || c.toNat == 0xfeff

/-- The regex test `/^\r?\n\s*$/.test(insertedText)`: an optional carriage
return, a newline, then only whitespace. -/
def isNewlineWithIndent : List Char → Bool
  | '\r' :: '\n' :: rest => rest.all jsIsSpace
  | '\n' :: rest => rest.all jsIsSpace
  | _ => false

/-- `PASTE_CHAR_THRESHOLD` of the tracker source. -/
def PASTE_CHAR_THRESHOLD : Nat := 2

/-- Classification of one element of `e.contentChanges` (the loop body of
`handleDocumentChange`): an empty insertion, an insertion of at most
`PASTE_CHAR_THRESHOLD` characters, or a newline-plus-indent insertion
counts one keystroke; anything else counts one paste event and adds its
length to the running paste-character total. -/
def applyContentChange (m : FileMetricsAcc) (insertedText : List Char) :
    FileMetricsAcc :=
  if insertedText.length = 0 then
    { m with keystrokeCount := m.keystrokeCount + 1 }
  else if insertedText.length ≤ PASTE_CHAR_THRESHOLD ∨
      isNewlineWithIndent insertedText then
    { m with keystrokeCount := m.keystrokeCount + 1 }
  else
    { m with pasteCount := m.pasteCount + 1,
             pasteCharCount := m.pasteCharCount + insertedText.length }

/-- `handleDocumentChange`: ignore files whose path does not contain
`exercise_` and events with no content changes; otherwise get-or-create the
accumulator keyed by the lower-cased path, stamp `firstInputAt` (first time
only) and `lastInputAt`, and classify each change. -/
def handleDocumentChange (metrics : List (String × FileMetricsAcc))
    (filePath : String) (changes : List (List Char)) (now : Nat) :
    List (String × FileMetricsAcc) :=
  if !hasInfixChars "exercise_".data filePath.data then metrics
  else if changes.isEmpty then metrics
  else
    let key := lowerStr filePath
    let m0 := (alGet key metrics).getD freshAcc
    let m1 := { m0 with firstInputAt := some (m0.firstInputAt.getD now),
                        lastInputAt := some now }
    alSet key (changes.foldl applyContentChange m1) metrics

/-- `getAndReset(filePath, charCount)`: build the snapshot (each `?? 0` /
`?? now` fallback spelled out), compute `editDurationMs` as
`Math.max(0, last - first)` when both stamps exist, then delete the entry
so the next window starts empty. -/
def getAndReset (metrics : List (String × FileMetricsAcc))
    (filePath : String) (charCount : Nat) (now : Nat) :
    InputMetrics × List (String × FileMetricsAcc) :=
  let key := lowerStr filePath
  let m := alGet key metrics
  let result : InputMetrics :=
    { keystrokeCount := (m.map (·.keystrokeCount)).getD 0,
      pasteCount := (m.map (·.pasteCount)).getD 0,
      pasteCharCount := (m.map (·.pasteCharCount)).getD 0,
      editDurationMs :=
        match m with
        | some mm =>
          match mm.firstInputAt, mm.lastInputAt with
          | some f, some l => max 0 ((l : Int) - (f : Int))
          | _, _ => 0
        | none => 0,
      charCount := charCount,
      firstInputAt := ((m.bind (·.firstInputAt)).getD now),
      lastInputAt := ((m.bind (·.lastInputAt)).getD now) }
  (result, alDel key metrics)

/-! ### Sync engine state (`FileSyncManager`) -/

/-- A live `setTimeout` timer created by `queueSync`: its numeric handle,
the captured `filePath` and `courseId`, and the delay it was armed with. -/
structure TimerEntry where
  tid : Nat
  filePath : String
  courseId : String
  delayMs : Nat
deriving DecidableEq, Repr

/-- The mutable state of a `FileSyncManager` instance, together with its
environment: the live timer table of the runtime, the local file system
(`fileContents`, path → bytes), the remote `studentAnswers` collection
(`store`), and a log of the `saveStudentAnswer` calls performed
(`upsertLog`, entries `(filePath, sectionId, content)`). -/
structure SyncState where
  fileWatcherActive : Bool
  pendingSaves : List (String × Nat)
  syncInProgress : List String
  fileToSectionMap : List (String × Section')
  trackedLessons : List String
  currentCourseId : Option String
  liveTimers : List TimerEntry
  nextTimerId : Nat
  metrics : List (String × FileMetricsAcc)
  fileContents : List (String × String)
  store : List AnswerDoc
  upsertLog : List (String × String × String)
deriving Repr

/-- `stopWatching()`: dispose the watcher and clear `pendingSaves`,
`fileToSectionMap`, `trackedLessons` and `currentCourseId`.  Note that
`pendingSaves.clear()` only empties the map — no `clearTimeout` is called,
so `liveTimers` is untouched and the underlying timers will still fire. -/
def stopWatching (s : SyncState) : SyncState :=
  { s with fileWatcherActive := false, pendingSaves := [],
           fileToSectionMap := [], trackedLessons := [],
           currentCourseId := none }

/-- `trackLesson(exercisesPath, lessonId, sections, courseId)`: tear the
session down first when the course changed; record the course and lesson;
append every `type == "code"` section to the file map under the lower-cased
joined path; start the watcher if none is active (and a workspace root
exists — `workspaceRootAvailable`). -/
def trackLesson (s : SyncState) (exercisesPath lessonId : String)
    (sections : List Section') (courseId : String)
    (workspaceRootAvailable : Bool) : SyncState :=
  let s1 :=
    match s.currentCourseId with
    | some c => if c ≠ courseId then stopWatching s else s
    | none => s
  let s2 := { s1 with currentCourseId := some courseId,
                      trackedLessons := setAdd lessonId s1.trackedLessons }
  let s3 := sections.foldl
    (fun st sec =>
      if sec.stype = "code" then
        { st with fileToSectionMap := alSet (lowerStr (exercisesPath ++ "/" ++ exerciseFileName sec)) sec st.fileToSectionMap }
      else st) s2
  if !s3.fileWatcherActive && workspaceRootAvailable then
    { s3 with fileWatcherActive := true }
  else s3

/-- The default `delayMs` of `queueSync`. -/
def defaultSyncDelayMs : Nat := 2000

/-- `queueSync(filePath, _, courseId, delayMs)`: if a timer for this path
is pending, `clearTimeout` it (remove it from the live timers); then arm a
fresh timer and record its handle in `pendingSaves`. -/
def queueSync (s : SyncState) (filePath courseId : String) (delayMs : Nat) :
    SyncState :=
  let s1 :=
    match alGet filePath s.pendingSaves with
    | some tid => { s with liveTimers := s.liveTimers.filter (fun t => t.tid ≠ tid) }
    | none => s
  { s1 with
      liveTimers := s1.liveTimers ++
        [{ tid := s1.nextTimerId, filePath := filePath, courseId := courseId,
           delayMs := delayMs }],
      pendingSaves := alSet filePath s1.nextTimerId s1.pendingSaves,
      nextTimerId := s1.nextTimerId + 1 }

/-- One file-change notification from the watcher
(`fileWatcher.onDidChange`): the file now holds `content`, and
`queueSync(uri.fsPath, '', courseId)` is invoked with the default delay. -/
def observeEdit (s : SyncState) (filePath courseId content : String) :
    SyncState :=
  queueSync { s with fileContents := alSet filePath content s.fileContents }
    filePath courseId defaultSyncDelayMs

/-- The outcomes of the suspending operations of one `syncFile` run:
`getUserId()`, whether `fs.readFile` succeeds, whether the Firebase write
succeeds, and the event time (used for `serverTimestamp()` and for the
metrics snapshot). -/
structure SyncEnv where
  userId : Option String
  readOk : Bool
  upsertOk : Bool
  now : Nat
deriving Repr

/-- Control point of one `syncFile(filePath, courseId)` invocation: the
maximal synchronous blocks are separated by the two `await` suspension
points (`fs.readFile` and `saveStudentAnswer`); local constants captured
before a suspension travel with the control point. -/
inductive SyncPc where
  | start : SyncPc
  | awaitingRead : Section' → String → SyncPc
  | awaitingUpsert : Section' → String → String → InputMetrics → SyncPc
  | done : SyncPc
deriving DecidableEq, Repr

/-- Whether an invocation is past the in-flight guard and still running. -/
def SyncPc.isActive : SyncPc → Bool
  | .awaitingRead _ _ => true
  | .awaitingUpsert _ _ _ _ => true
  | _ => false

/-- The `finally` clause of `syncFile`: `syncInProgress.delete(filePath)`. -/
def removeInFlight (fp : String) (s : SyncState) : SyncState :=
  { s with syncInProgress := s.syncInProgress.filter (fun x => x ≠ fp) }

/-- One synchronous block of `syncFile(fp, cid)`.  `start`: look the file
up in the section map (lower-cased key; untracked files no-op), check the
in-flight guard (raw path), mark in-flight, read `getUserId()` (absent user
returns through `finally`), then suspend on `fs.readFile`.  On resumption:
a failed read lands in `catch` then `finally`; a successful read takes the
metrics snapshot synchronously and suspends on the Firebase write, which
logs one upsert call and on success applies `saveStudentAnswer`, either way
ending through `finally`. -/
def syncStep (env : SyncEnv) (fp cid : String) (pc : SyncPc) (s : SyncState) :
    SyncPc × SyncState :=
  match pc with
  | .start =>
    match alGet (lowerStr fp) s.fileToSectionMap with
    | none => (.done, s)
    | some sec =>
      if s.syncInProgress.contains fp then (.done, s)
      else
        let s1 := { s with syncInProgress := fp :: s.syncInProgress }
        match env.userId with
        | none => (.done, removeInFlight fp s1)
        | some uid => (.awaitingRead sec uid, s1)
  | .awaitingRead sec uid =>
    match (if env.readOk then alGet fp s.fileContents else none) with
    | none => (.done, removeInFlight fp s)
    | some content =>
      let r := getAndReset s.metrics fp content.length env.now
      (.awaitingUpsert sec uid content r.1, { s with metrics := r.2 })
  | .awaitingUpsert sec uid content _im =>
    let s1 := { s with upsertLog := s.upsertLog ++ [(fp, sec.id, content)] }
    let s2 :=
      if env.upsertOk then
        { s1 with store := saveStudentAnswer s1.store sec.id uid sec.lessonId content "code" (some cid) env.now }
      else s1
    (.done, removeInFlight fp s2)
  | .done => (.done, s)

/-- A complete, uninterleaved `syncFile` run (three blocks always reach
`done`). -/
def syncRun (env : SyncEnv) (fp cid : String) (s : SyncState) : SyncState :=
  let r1 := syncStep env fp cid .start s
  let r2 := syncStep env fp cid r1.1 r1.2
  (syncStep env fp cid r2.1 r2.2).2

/-- Firing of the timer with handle `tid`, if still live: the timer is
consumed, its callback runs `syncFile(filePath, courseId)` to completion
and then removes the `pendingSaves` entry for that path. -/
def fireTimer (s : SyncState) (tid : Nat) (env : SyncEnv) : SyncState :=
  match s.liveTimers.find? (fun t => t.tid == tid) with
  | none => s
  | some t =>
    let s1 := { s with liveTimers := s.liveTimers.filter (fun u => u.tid ≠ tid) }
    let s2 := syncRun env t.filePath t.courseId s1
    { s2 with pendingSaves := alDel t.filePath s2.pendingSaves }

/-- Interleaved execution of two `syncFile` invocations for the same path
`fp` (with environments and course ids of their own): a configuration is
the two control points plus the shared state, and `true` in a schedule
steps the first invocation. -/
def stepTask (envA envB : SyncEnv) (fp cidA cidB : String)
    (c : SyncPc × SyncPc × SyncState) (which : Bool) :
    SyncPc × SyncPc × SyncState :=
  match which with
  | true =>
    let r := syncStep envA fp cidA c.1 c.2.2
    (r.1, c.2.1, r.2)
  | false =>
    let r := syncStep envB fp cidB c.2.1 c.2.2
    (c.1, r.1, r.2)

/-- Run a schedule of interleaved steps of the two invocations. -/
def runSched (envA envB : SyncEnv) (fp cidA cidB : String)
    (sched : List Bool) (c : SyncPc × SyncPc × SyncState) :
    SyncPc × SyncPc × SyncState :=
  sched.foldl (stepTask envA envB fp cidA cidB) c

/-! ### Association list lemmas -/

theorem alGet_alSet_self {β : Type} (k : String) (v : β) (l : List (String × β)) :
    alGet k (alSet k v l) = some v := by
  induction l with
  | nil => simp [alGet, alSet]
  | cons p t ih =>
    by_cases h : p.1 = k
    · simp [alSet, alGet, h]
    · have hb : (p.1 == k) = false := by simpa using h
      simp only [alSet, hb, Bool.false_eq_true, if_false]
      simp only [alGet, List.find?_cons, hb] at ih ⊢
      exact ih

theorem alGet_alDel_self {β : Type} (k : String) (l : List (String × β)) :
    alGet k (alDel k l) = none := by
  induction l with
  | nil => simp [alGet, alDel]
  | cons p t ih =>
    by_cases h : p.1 = k
    · simpa [alDel, List.filter_cons, h] using ih
    · have hb : (p.1 == k) = false := by simpa using h
      simp only [alDel, List.filter_cons, bne_iff_ne, ne_eq, h,
        not_false_iff, if_true] at ih ⊢
      simp only [alGet, List.find?_cons, hb] at ih ⊢
      exact ih

theorem contains_filter_ne (fp : String) (l : List String) :
    (l.filter (fun x => x ≠ fp)).contains fp = false := by
  induction l with
  | nil => rfl
  | cons a t ih =>
    by_cases h : a = fp
    · simpa [List.filter_cons, h] using ih
    · simp only [List.filter_cons, ne_eq, h, not_false_iff, decide_True, if_true]
      simpa [List.contains_cons, Ne.symm h] using ih

theorem removeInFlight_contains (fp : String) (s : SyncState) :
    ((removeInFlight fp s).syncInProgress).contains fp = false := by
  simpa [removeInFlight] using contains_filter_ne fp s.syncInProgress

/-! ### Decimal rendering lemmas -/

theorem natCharsAux_stable :
    ∀ (f g n : Nat), n < f → n < g → natCharsAux f n = natCharsAux g n := by
  intro f
  induction f with
  | zero => intro g n h; omega
  | succ f ih =>
    intro g n hf hg
    match g, hg with
    | g + 1, _ =>
      by_cases h10 : n < 10
      · simp [natCharsAux, h10]
      · have hn : 10 ≤ n := by omega
        have hdiv : n / 10 < n := Nat.div_lt_self (by omega) (by omega)
        simp only [natCharsAux, h10, if_false]
        rw [ih g (n / 10) (by omega) (by omega)]

theorem natCharsAux_succ (f n : Nat) :
    natCharsAux (f + 1) n = if n < 10 then [Nat.digitChar n]
      else natCharsAux f (n / 10) ++ [Nat.digitChar (n % 10)] := rfl

theorem natChars_eq (n : Nat) :
    natChars n = if n < 10 then [Nat.digitChar n]
      else natChars (n / 10) ++ [Nat.digitChar (n % 10)] := by
  rw [natChars, natCharsAux_succ]
  by_cases h10 : n < 10
  · simp [h10]
  · simp only [h10, if_false]
    rw [natCharsAux_stable n (n / 10 + 1) (n / 10) (by omega) (by omega)]
    rfl

theorem digitChar_isDigit : ∀ m : Nat, m < 10 → (Nat.digitChar m).isDigit = true := by
  decide

theorem natChars_isDigit : ∀ (n : Nat) (c : Char), c ∈ natChars n → c.isDigit = true := by
  intro n
  induction n using Nat.strong_induction_on with
  | _ n ih =>
    intro c hc
    rw [natChars_eq] at hc
    by_cases h10 : n < 10
    · simp only [h10, if_true, List.mem_singleton] at hc
      subst hc
      exact digitChar_isDigit n h10
    · have hdiv : n / 10 < n := Nat.div_lt_self (by omega) (by omega)
      simp only [h10, if_false, List.mem_append, List.mem_singleton] at hc
      rcases hc with hc | hc
      · exact ih (n / 10) hdiv c hc
      · subst hc
        exact digitChar_isDigit (n % 10) (Nat.mod_lt _ (by omega))

/-- Value of a decimal digit character, inverse of `Nat.digitChar` below 10. -/
def digitVal (c : Char) : Nat := c.toNat - '0'.toNat

/-- Fold a digit list onto an accumulator, reading it as a decimal number. -/
def parseFrom (a : Nat) (l : List Char) : Nat :=
  l.foldl (fun x c => 10 * x + digitVal c) a

theorem digitVal_digitChar : ∀ m : Nat, m < 10 → digitVal (Nat.digitChar m) = m := by
  decide

theorem parseFrom_natChars :
    ∀ (n a : Nat), parseFrom a (natChars n) = a * 10 ^ (natChars n).length + n := by
  intro n
  induction n using Nat.strong_induction_on with
  | _ n ih =>
    intro a
    rw [natChars_eq]
    by_cases h10 : n < 10
    · simp only [h10, if_true, parseFrom, List.foldl_cons, List.foldl_nil,
        List.length_singleton, pow_one]
      rw [digitVal_digitChar n h10]
      ring
    · have hdiv : n / 10 < n := Nat.div_lt_self (by omega) (by omega)
      simp only [h10, if_false, parseFrom, List.foldl_append, List.foldl_cons,
        List.foldl_nil, List.length_append, List.length_singleton]
      have hrec := ih (n / 10) hdiv a
      simp only [parseFrom] at hrec
      rw [hrec, digitVal_digitChar (n % 10) (Nat.mod_lt _ (by omega))]
      have hmod := Nat.div_add_mod n 10
      have hpow : 10 * (a * 10 ^ (natChars (n / 10)).length) =
          a * 10 ^ ((natChars (n / 10)).length + 1) := by ring
      omega

theorem natChars_inj {m n : Nat} (h : natChars m = natChars n) : m = n := by
  have hm := parseFrom_natChars m 0
  have hn := parseFrom_natChars n 0
  rw [h] at hm
  omega

theorem takeWhile_append_of_all (p : Char → Bool) :
    ∀ (a : List Char) (c : Char) (r : List Char), (∀ x ∈ a, p x = true) →
      p c = false → List.takeWhile p (a ++ c :: r) = a := by
  intro a
  induction a with
  | nil => intro c r _ hc; simp [List.takeWhile, hc]
  | cons x t ih =>
    intro c r hall hc
    have hx : p x = true := hall x (by simp)
    rw [List.cons_append, List.takeWhile_cons]
    simp only [hx, if_true]
    rw [ih c r (fun y hy => hall y (List.mem_cons_of_mem _ hy)) hc]

theorem natChars_not_underscore (n : Nat) :
    ∀ c ∈ natChars n, (fun c => c != '_') c = true := by
  intro c hc
  have hd := natChars_isDigit n c hc
  simp only [bne_iff_ne, ne_eq]
  intro h
  subst h
  exact absurd hd (by decide)

/-! ### Shared concrete data for witnesses and counterexamples -/

/-- The exercise of the specification's worked scenario: "Intro to Loops!!"
at `orderIndex` 3, language `python`, no starter. -/
def sampleSection : Section' :=
  { id := "s1", lessonId := "l1", title := "Intro to Loops!!", content := "",
    stype := "code", orderIndex := 3, language := some "python",
    starterValue := none }

/-- A remote answer record for `sampleSection` whose `answer` is the empty
string (such a record is produced by pushing an emptied-out local file). -/
def emptyAnswerDoc : AnswerDoc :=
  { sectionId := "s1", userId := "u", lessonId := "l1", answer := "",
    atype := "code", courseId := none, createdAt := 0, updatedAt := 0,
    inputMetrics := none }

/-! ### Claim C1 — materialization precedence, pull direction -/

/-- C1 (amended): if a remote answer record exists for
`(sectionId, userId)` and its content is *nonempty*, materialization
writes exactly that content to the derived local path, regardless of any
pre-existing local file content. -/
theorem c1_remote_pull_overwrites (sec : Section') (uid : String)
    (store : List AnswerDoc) (existing : Option String) (d : AnswerDoc)
    (hfind : getStudentAnswer store sec.id uid = some d)
    (hne : d.answer ≠ "") :
    createExerciseFileContent sec (some uid) store existing = d.answer := by
  simp [createExerciseFileContent, hfind, hne]

/-- Witness for C1: the spec's own scenario — remote content `"print(1)"`,
local file holding half-finished code — ends with exactly `"print(1)"`. -/
theorem c1_witness :
    createExerciseFileContent sampleSection (some "u")
      [{ sectionId := "s1", userId := "u", lessonId := "l1",
         answer := "print(1)", atype := "code", courseId := none,
         createdAt := 0, updatedAt := 0, inputMetrics := none }]
      (some "half-finished code") = "print(1)" :=
  c1_remote_pull_overwrites sampleSection "u"
    [{ sectionId := "s1", userId := "u", lessonId := "l1",
       answer := "print(1)", atype := "code", courseId := none,
       createdAt := 0, updatedAt := 0, inputMetrics := none }]
    (some "half-finished code")
    { sectionId := "s1", userId := "u", lessonId := "l1",
      answer := "print(1)", atype := "code", courseId := none,
      createdAt := 0, updatedAt := 0, inputMetrics := none }
    rfl (by decide)

/-- Counterexample to C1 as stated: a remote record whose content is the
empty string exists for `(s1, u)`, yet materialization preserves the
pre-existing local content `"local work"` instead of writing `""` —
`if (answer && answer.answer)` treats the empty answer as absent. -/
theorem c1_counterexample :
    getStudentAnswer [emptyAnswerDoc] sampleSection.id "u" = some emptyAnswerDoc ∧
    emptyAnswerDoc.answer = "" ∧
    createExerciseFileContent sampleSection (some "u") [emptyAnswerDoc]
      (some "local work") = "local work" := by
  refine ⟨rfl, rfl, rfl⟩

/-! ### Claim C6 — starter / default-template materialization -/

/-- C6 (amended): with no remote record and no local file, materialization
writes the starter value when it is present *and nonempty*; when the
starter is absent or empty it writes the language-specific default
template.  The spec's scenario: "Intro to Loops!!", `orderIndex` 3,
python, no starter, produces the file `exercise_3_intro_to_loops.py`
containing exactly the default python template. -/
theorem c6_starter_or_default :
    (∀ (sec : Section') (uid : Option String) (v : String),
      sec.starterValue = some v → v ≠ "" →
      createExerciseFileContent sec uid [] none = v) ∧
    (∀ (sec : Section') (uid : Option String),
      jsOrOpt sec.starterValue "" = "" →
      createExerciseFileContent sec uid [] none =
        getDefaultBoilerplate (jsOrOpt sec.language "python") sec.title) ∧
    exerciseFileName sampleSection = "exercise_3_intro_to_loops.py" ∧
    createExerciseFileContent sampleSection (some "u") [] none =
      "# Exercise: Intro to Loops!!\n# TODO: Implement your solution here\n\n" := by
  refine ⟨?_, ?_, ?_, ?_⟩
  · intro sec uid v hv hne
    cases uid <;>
      simp [createExerciseFileContent, getStudentAnswer, hv, jsOrOpt, jsOr, hne]
  · intro sec uid h
    cases uid <;> simp [createExerciseFileContent, getStudentAnswer, h]
  · rfl
  · rfl

/-- Witness for C6: a nonempty starter `"x = 1"` is written verbatim, and
the no-starter sample yields the default template. -/
theorem c6_witness :
    createExerciseFileContent { sampleSection with starterValue := some "x = 1" }
      (some "u") [] none = "x = 1" ∧
    createExerciseFileContent sampleSection (some "u") [] none =
      getDefaultBoilerplate (jsOrOpt sampleSection.language "python")
        sampleSection.title :=
  ⟨c6_starter_or_default.1 _ (some "u") "x = 1" rfl (by decide),
   c6_starter_or_default.2.1 sampleSection (some "u") rfl⟩

/-- Counterexample to C6 as stated: a *present but empty* starter value is
not written; `starterValue || ''` is falsy for `''`, so the default
template is produced instead of the empty starter. -/
theorem c6_counterexample :
    ({ sampleSection with starterValue := some "" } : Section').starterValue =
      some "" ∧
    createExerciseFileContent { sampleSection with starterValue := some "" }
      (some "u") [] none =
      "# Exercise: Intro to Loops!!\n# TODO: Implement your solution here\n\n" ∧
    createExerciseFileContent { sampleSection with starterValue := some "" }
      (some "u") [] none ≠ "" := by
  refine ⟨rfl, rfl, by decide⟩

/-! ### Claim C9 — preserve-local idempotence -/

/-- C9: when a local file exists and no remote answer record exists for
`(sectionId, userId)`, materialization returns the local bytes unchanged,
and doing it twice still returns them unchanged. -/
theorem c9_preserve_local_idempotent (sec : Section') (uid : Option String)
    (store : List AnswerDoc) (l : String)
    (hnone : ∀ u, uid = some u → getStudentAnswer store sec.id u = none) :
    createExerciseFileContent sec uid store (some l) = l ∧
    createExerciseFileContent sec uid store
      (some (createExerciseFileContent sec uid store (some l))) = l := by
  have h1 : createExerciseFileContent sec uid store (some l) = l := by
    cases uid with
    | none => simp [createExerciseFileContent]
    | some u => simp [createExerciseFileContent, hnone u rfl]
  refine ⟨h1, ?_⟩
  rw [h1]
  exact h1

/-- Witness for C9: an existing local file `"my work"` with an empty remote
store is preserved across two materializations. -/
theorem c9_witness :
    createExerciseFileContent sampleSection (some "u") [] (some "my work") =
      "my work" ∧
    createExerciseFileContent sampleSection (some "u") []
      (some (createExerciseFileContent sampleSection (some "u") []
        (some "my work"))) = "my work" :=
  c9_preserve_local_idempotent sampleSection (some "u") [] "my work"
    (fun _ _ => rfl)

/-! ### Claim C10 — getAndReset consumes the accumulator -/

/-- C10: `getAndReset` deletes the file's metrics entry, so a second
`getAndReset` (equally, one for a file with no observed edits since the
last reset) returns all-zero counters, zero duration, the passed
`charCount`, and `firstInputAt = lastInputAt =` the call time. -/
theorem c10_getAndReset_consumes (metrics : List (String × FileMetricsAcc))
    (fp : String) (n now n2 now2 : Nat) :
    alGet (lowerStr fp) (getAndReset metrics fp n now).2 = none ∧
    (getAndReset (getAndReset metrics fp n now).2 fp n2 now2).1 =
      { keystrokeCount := 0, pasteCount := 0, pasteCharCount := 0,
        editDurationMs := 0, charCount := n2, firstInputAt := now2,
        lastInputAt := now2 } := by
  have hdel : alGet (lowerStr fp) (alDel (lowerStr fp) metrics) = none :=
    alGet_alDel_self _ _
  refine ⟨by simpa [getAndReset] using hdel, ?_⟩
  simp [getAndReset, hdel]

/-! ### Claim C5 — input classification -/

/-- C5: an empty insertion (pure deletion) counts one keystroke; an
insertion of at most `PASTE_CHAR_THRESHOLD = 2` characters, or one
matching newline-followed-only-by-whitespace, counts one keystroke; any
other insertion counts one paste event and adds its full length to the
paste-character total.  Concretely, five single-character insertions give
`keystrokeCount = 5, pasteCount = 0`, and one 50-character insertion gives
`keystrokeCount = 0, pasteCount = 1, pasteCharCount = 50`. -/
theorem c5_input_classification :
    (∀ m : FileMetricsAcc, applyContentChange m [] =
      { m with keystrokeCount := m.keystrokeCount + 1 }) ∧
    (∀ (m : FileMetricsAcc) (t : List Char),
      t.length ≤ PASTE_CHAR_THRESHOLD ∨ isNewlineWithIndent t = true →
      applyContentChange m t = { m with keystrokeCount := m.keystrokeCount + 1 }) ∧
    (∀ (m : FileMetricsAcc) (t : List Char),
      PASTE_CHAR_THRESHOLD < t.length → isNewlineWithIndent t = false →
      applyContentChange m t =
        { m with pasteCount := m.pasteCount + 1,
                 pasteCharCount := m.pasteCharCount + t.length }) ∧
    (alGet (lowerStr "/w/exercise_1_a.py")
        ((List.range 5).foldl
          (fun mm _ => handleDocumentChange mm "/w/exercise_1_a.py" [['a']] 0)
          [])).map
      (fun m => (m.keystrokeCount, m.pasteCount, m.pasteCharCount)) =
      some (5, 0, 0) ∧
    (alGet (lowerStr "/w/exercise_1_a.py")
        (handleDocumentChange [] "/w/exercise_1_a.py"
          [List.replicate 50 'x'] 0)).map
      (fun m => (m.keystrokeCount, m.pasteCount, m.pasteCharCount)) =
      some (0, 1, 50) := by
  refine ⟨?_, ?_, ?_, by decide, by decide⟩
  · intro m
    simp [applyContentChange]
  · intro m t h
    by_cases h0 : t.length = 0
    · simp [applyContentChange, h0]
    · have h' : t.length ≤ PASTE_CHAR_THRESHOLD ∨ isNewlineWithIndent t = true := h
      simp only [applyContentChange, h0, if_false]
      rcases h' with h' | h'
      · simp [h']
      · simp [h']
  · intro m t hlen hnl
    have h0 : ¬t.length = 0 := by omega
    have h1 : ¬(t.length ≤ PASTE_CHAR_THRESHOLD ∨ isNewlineWithIndent t = true) := by
      push_neg
      exact ⟨by omega, by simp [hnl]⟩
    simp [applyContentChange, h0, h1]

/-- Witness for C5: a one-character insertion is a keystroke; a block of
fifty characters is one paste of fifty characters. -/
theorem c5_witness :
    applyContentChange freshAcc [] = { freshAcc with keystrokeCount := 1 } ∧
    applyContentChange freshAcc ['a'] = { freshAcc with keystrokeCount := 1 } ∧
    applyContentChange freshAcc (List.replicate 50 'x') =
      { freshAcc with pasteCount := 1, pasteCharCount := 50 } :=
  ⟨c5_input_classification.1 freshAcc,
   c5_input_classification.2.1 freshAcc ['a'] (Or.inl (by decide)),
   c5_input_classification.2.2.1 freshAcc (List.replicate 50 'x')
     (by decide) (by decide)⟩

/-! ### Claim C4 — upsert semantics of a push -/

/-- Predicate of the Firestore query of `saveStudentAnswer` and
`getStudentAnswer`: `where sectionId == ∧ userId ==`. -/
def matchesKey (sid uid : String) (d : AnswerDoc) : Bool :=
  d.sectionId == sid && d.userId == uid

/-- C4 (amended): a push looks up an existing record by
`(sectionId, userId)`.  If none exists, a fresh record carrying the
identity's `lessonId` and (truthy) `courseId` is appended.  If one exists,
exactly that record is rewritten in place — same collection size, and the
looked-up record now carries the new `answer` and `updatedAt` but its
`inputMetrics` unchanged (the metrics snapshot passed by the coordinator
is not persisted) — and the number of records matching the key never grows
past one (no duplicate is created). -/
theorem c4_upsert_in_place (store : List AnswerDoc)
    (sid uid lid content ty : String) (cid : Option String) (now : Nat) :
    (getStudentAnswer store sid uid = none →
      saveStudentAnswer store sid uid lid content ty cid now =
        store ++ [{ sectionId := sid, userId := uid, lessonId := lid,
                    answer := content, atype := ty,
                    courseId := jsTruthyOpt cid, createdAt := now,
                    updatedAt := now, inputMetrics := none }]) ∧
    (∀ d, getStudentAnswer store sid uid = some d →
      (saveStudentAnswer store sid uid lid content ty cid now).length =
        store.length ∧
      getStudentAnswer (saveStudentAnswer store sid uid lid content ty cid now)
          sid uid =
        some { d with answer := content, updatedAt := now } ∧
      (saveStudentAnswer store sid uid lid content ty cid now).countP
          (matchesKey sid uid) =
        store.countP (matchesKey sid uid)) := by
  induction store with
  | nil =>
    refine ⟨fun _ => rfl, fun d hd => ?_⟩
    simp [getStudentAnswer] at hd
  | cons e es ih =>
    by_cases hm : e.sectionId = sid ∧ e.userId = uid
    · constructor
      · intro hnone
        exfalso
        simp [getStudentAnswer, List.find?_cons, hm.1, hm.2] at hnone
      · intro d hd
        have hd' : e = d := by
          simpa [getStudentAnswer, List.find?_cons, hm.1, hm.2] using hd
        subst hd'
        refine ⟨by simp [saveStudentAnswer, hm], ?_, ?_⟩
        · simp [saveStudentAnswer, hm, getStudentAnswer, List.find?_cons,
            hm.1, hm.2]
        · simp [saveStudentAnswer, hm, List.countP_cons, matchesKey,
            hm.1, hm.2]
    · have hbool : (e.sectionId == sid && e.userId == uid) = false := by
        rw [Bool.eq_false_iff]
        intro hc
        exact hm (by simpa using hc)
      constructor
      · intro hnone
        have hes : getStudentAnswer es sid uid = none := by
          simpa [getStudentAnswer, List.find?_cons, hbool] using hnone
        simp only [saveStudentAnswer, hm, if_false]
        rw [ih.1 hes, List.cons_append]
      · intro d hd
        have hes : getStudentAnswer es sid uid = some d := by
          simpa [getStudentAnswer, List.find?_cons, hbool] using hd
        obtain ⟨hl, hg, hc⟩ := ih.2 d hes
        refine ⟨by simpa [saveStudentAnswer, hm] using hl, ?_, ?_⟩
        · simp only [saveStudentAnswer, hm, if_false, getStudentAnswer,
            List.find?_cons, hbool]
          simpa [getStudentAnswer] using hg
        · have hbk : matchesKey sid uid e = false := hbool
          simp only [saveStudentAnswer, hm, if_false, List.countP_cons, hbk]
          simpa [getStudentAnswer] using hc

/-- Witness for C4: an empty collection gains exactly the new record; a
collection holding a matching record is updated in place. -/
theorem c4_witness :
    saveStudentAnswer [] "s1" "u" "l1" "x" "code" (some "c1") 5 =
      [{ sectionId := "s1", userId := "u", lessonId := "l1", answer := "x",
         atype := "code", courseId := some "c1", createdAt := 5,
         updatedAt := 5, inputMetrics := none }] ∧
    getStudentAnswer
        (saveStudentAnswer [emptyAnswerDoc] "s1" "u" "l1" "x" "code" none 5)
        "s1" "u" =
      some { emptyAnswerDoc with answer := "x", updatedAt := 5 } :=
  ⟨(c4_upsert_in_place [] "s1" "u" "l1" "x" "code" (some "c1") 5).1 rfl,
   ((c4_upsert_in_place [emptyAnswerDoc] "s1" "u" "l1" "x" "code" none 5).2
     emptyAnswerDoc rfl).2.1⟩

/-- Counterexample to C4 as stated: a full push (debounced sync run) whose
metrics snapshot records five keystrokes updates the existing record's
content and timestamp but does *not* update any input metrics on it — the
record's `inputMetrics` stays `none`; `saveStudentAnswer` neither receives
nor writes the snapshot. -/
theorem c4_counterexample :
    (getAndReset
        [(lowerStr "/w/topics/exercise_1_a.py",
          { keystrokeCount := 5, pasteCount := 0, pasteCharCount := 0,
            firstInputAt := some 1, lastInputAt := some 2 })]
        "/w/topics/exercise_1_a.py" 8 7).1.keystrokeCount = 5 ∧
    (syncRun { userId := some "u", readOk := true, upsertOk := true, now := 7 }
        "/w/topics/exercise_1_a.py" "c1"
        { fileWatcherActive := true, pendingSaves := [], syncInProgress := [],
          fileToSectionMap :=
            [(lowerStr "/w/topics/exercise_1_a.py", sampleSection)],
          trackedLessons := ["l1"], currentCourseId := some "c1",
          liveTimers := [], nextTimerId := 0,
          metrics :=
            [(lowerStr "/w/topics/exercise_1_a.py",
              { keystrokeCount := 5, pasteCount := 0, pasteCharCount := 0,
                firstInputAt := some 1, lastInputAt := some 2 })],
          fileContents := [("/w/topics/exercise_1_a.py", "new code")],
          store := [emptyAnswerDoc], upsertLog := [] }).store =
      [{ emptyAnswerDoc with answer := "new code", updatedAt := 7 }] ∧
    (syncRun { userId := some "u", readOk := true, upsertOk := true, now := 7 }
        "/w/topics/exercise_1_a.py" "c1"
        { fileWatcherActive := true, pendingSaves := [], syncInProgress := [],
          fileToSectionMap :=
            [(lowerStr "/w/topics/exercise_1_a.py", sampleSection)],
          trackedLessons := ["l1"], currentCourseId := some "c1",
          liveTimers := [], nextTimerId := 0,
          metrics :=
            [(lowerStr "/w/topics/exercise_1_a.py",
              { keystrokeCount := 5, pasteCount := 0, pasteCharCount := 0,
                firstInputAt := some 1, lastInputAt := some 2 })],
          fileContents := [("/w/topics/exercise_1_a.py", "new code")],
          store := [emptyAnswerDoc], upsertLog := [] }).store.map
      (fun d => d.inputMetrics) = [none] := by
  refine ⟨rfl, by decide, by decide⟩

/-! ### Claim C7 — path derivation is pure and injective per lesson -/

/-- C7: the derived path depends only on the identity's `orderIndex`,
`title` and `language` (it is a pure function of the identity), and two
identities with different `orderIndex` never derive the same path: the
digits of `orderIndex` are recoverable as the characters before the first
underscore after the `exercise_` marker. -/
theorem c7_path_pure_injective :
    (∀ s1 s2 : Section', s1.orderIndex = s2.orderIndex →
      s1.title = s2.title → s1.language = s2.language →
      exerciseFileName s1 = exerciseFileName s2) ∧
    (∀ s1 s2 : Section', s1.orderIndex ≠ s2.orderIndex →
      exerciseFileName s1 ≠ exerciseFileName s2) := by
  constructor
  · intro s1 s2 h1 h2 h3
    simp [exerciseFileName, exerciseFileNameChars, h1, h2, h3]
  · intro s1 s2 hne heq
    apply hne
    have hc : exerciseFileNameChars s1 = exerciseFileNameChars s2 :=
      congrArg String.data heq
    simp only [exerciseFileNameChars] at hc
    rw [List.append_assoc, List.append_assoc] at hc
    have hx : natChars s1.orderIndex ++
        ('_' :: ((sanitizeFileName s1.title).data ++
          '.' :: (getFileExtension (jsOrOpt s1.language "python")).data)) =
        natChars s2.orderIndex ++
        ('_' :: ((sanitizeFileName s2.title).data ++
          '.' :: (getFileExtension (jsOrOpt s2.language "python")).data)) :=
      List.append_cancel_left hc
    have ht1 := takeWhile_append_of_all (fun c => c != '_')
      (natChars s1.orderIndex) '_'
      ((sanitizeFileName s1.title).data ++
        '.' :: (getFileExtension (jsOrOpt s1.language "python")).data)
      (natChars_not_underscore s1.orderIndex) (by decide)
    have ht2 := takeWhile_append_of_all (fun c => c != '_')
      (natChars s2.orderIndex) '_'
      ((sanitizeFileName s2.title).data ++
        '.' :: (getFileExtension (jsOrOpt s2.language "python")).data)
      (natChars_not_underscore s2.orderIndex) (by decide)
    have hnn : natChars s1.orderIndex = natChars s2.orderIndex := by
      rw [← ht1, ← ht2, hx]
    exact natChars_inj hnn

/-- Witness for C7: two sections of one lesson differing in `orderIndex`
(1 versus 12) derive distinct paths; a section equal to `sampleSection` on
the three path-relevant fields derives the same path. -/
theorem c7_witness :
    exerciseFileName { sampleSection with id := "other", content := "c" } =
      exerciseFileName sampleSection ∧
    exerciseFileName { sampleSection with orderIndex := 1, title := "2" } ≠
      exerciseFileName { sampleSection with orderIndex := 12, title := "" } :=
  ⟨c7_path_pure_injective.1 _ sampleSection rfl rfl rfl,
   c7_path_pure_injective.2 _ _ (by decide)⟩

/-! ### Claim C2 — per-file push mutual exclusion -/

/-- Invariant of the interleaved execution of two `syncFile` invocations
for the same path: the path is marked in-flight exactly when one of the
invocations is past the guard and still running, and they are never both
past the guard. -/
def MutexInv (fp : String) (c : SyncPc × SyncPc × SyncState) : Prop :=
  c.2.2.syncInProgress.contains fp = (c.1.isActive || c.2.1.isActive) ∧
  ¬(c.1.isActive = true ∧ c.2.1.isActive = true)

theorem isActive_start : SyncPc.start.isActive = false := rfl

theorem isActive_done : SyncPc.done.isActive = false := rfl

theorem isActive_read (sec : Section') (uid : String) :
    (SyncPc.awaitingRead sec uid).isActive = true := rfl

theorem isActive_upsert (sec : Section') (uid content : String)
    (im : InputMetrics) :
    (SyncPc.awaitingUpsert sec uid content im).isActive = true := rfl

theorem contains_cons_self (fp : String) (l : List String) :
    (fp :: l).contains fp = true := by
  simp [List.contains_cons]

theorem mutexHalf (env : SyncEnv) (fp cid : String) (pc other : SyncPc)
    (s : SyncState)
    (h1 : s.syncInProgress.contains fp = (pc.isActive || other.isActive))
    (h2 : ¬(pc.isActive = true ∧ other.isActive = true)) :
    (syncStep env fp cid pc s).2.syncInProgress.contains fp =
      ((syncStep env fp cid pc s).1.isActive || other.isActive) ∧
    ¬((syncStep env fp cid pc s).1.isActive = true ∧ other.isActive = true) := by
  cases pc with
  | start =>
    rw [isActive_start, Bool.false_or] at h1
    cases halg : alGet (lowerStr fp) s.fileToSectionMap with
    | none =>
      simp only [syncStep, halg]
      rw [isActive_done, Bool.false_or]
      exact ⟨h1, by simp [isActive_done]⟩
    | some sec =>
      cases hcont : s.syncInProgress.contains fp with
      | true =>
        simp only [syncStep, halg, hcont, if_true]
        rw [isActive_done, Bool.false_or]
        exact ⟨hcont.symm.trans h1, by simp [isActive_done]⟩
      | false =>
        have hother : other.isActive = false := (hcont.symm.trans h1).symm
        cases huid : env.userId with
        | none =>
          simp only [syncStep, halg, hcont, Bool.false_eq_true, if_false, huid]
          rw [isActive_done, Bool.false_or, hother]
          exact ⟨removeInFlight_contains fp _, by simp [isActive_done]⟩
        | some uid =>
          simp only [syncStep, halg, hcont, Bool.false_eq_true, if_false, huid]
          rw [isActive_read, hother, Bool.or_false]
          exact ⟨contains_cons_self fp _, by simp [hother]⟩
  | awaitingRead sec uid =>
    have hother : other.isActive = false := by
      by_contra ho
      exact h2 ⟨isActive_read sec uid, by revert ho; cases other.isActive <;> simp⟩
    rw [isActive_read, Bool.true_or] at h1
    cases hread : (if env.readOk then alGet fp s.fileContents else none) with
    | none =>
      simp only [syncStep, hread]
      rw [isActive_done, Bool.false_or, hother]
      exact ⟨removeInFlight_contains fp _, by simp [isActive_done]⟩
    | some content =>
      simp only [syncStep, hread]
      rw [isActive_upsert, Bool.true_or]
      exact ⟨h1, by simp [hother]⟩
  | awaitingUpsert sec uid content im =>
    have hother : other.isActive = false := by
      by_contra ho
      exact h2 ⟨isActive_upsert sec uid content im,
        by revert ho; cases other.isActive <;> simp⟩
    simp only [syncStep]
    rw [isActive_done, Bool.false_or, hother]
    exact ⟨removeInFlight_contains fp _, by simp [isActive_done]⟩
  | done =>
    rw [isActive_done, Bool.false_or] at h1
    simp only [syncStep]
    rw [isActive_done, Bool.false_or]
    exact ⟨h1, by simp [isActive_done]⟩

theorem mutexInv_step (envA envB : SyncEnv) (fp cidA cidB : String)
    (c : SyncPc × SyncPc × SyncState) (w : Bool) (h : MutexInv fp c) :
    MutexInv fp (stepTask envA envB fp cidA cidB c w) := by
  obtain ⟨pa, pb, s⟩ := c
  obtain ⟨h1, h2⟩ := h
  cases w with
  | true =>
    have hh := mutexHalf envA fp cidA pa pb s h1 h2
    exact ⟨hh.1, hh.2⟩
  | false =>
    have h1' : s.syncInProgress.contains fp = (pb.isActive || pa.isActive) := by
      rw [h1, Bool.or_comm]
    have h2' : ¬(pb.isActive = true ∧ pa.isActive = true) :=
      fun hx => h2 ⟨hx.2, hx.1⟩
    have hh := mutexHalf envB fp cidB pb pa s h1' h2'
    constructor
    · show (syncStep envB fp cidB pb s).2.syncInProgress.contains fp =
        (pa.isActive || (syncStep envB fp cidB pb s).1.isActive)
      rw [hh.1, Bool.or_comm]
    · show ¬(pa.isActive = true ∧ (syncStep envB fp cidB pb s).1.isActive = true)
      exact fun hx => hh.2 ⟨hx.2, hx.1⟩

theorem step_start_pc (env : SyncEnv) (fp cid : String) (s : SyncState) :
    (syncStep env fp cid .start s).1 = .done ∨
    ∃ sec uid, (syncStep env fp cid .start s).1 = .awaitingRead sec uid := by
  simp only [syncStep]
  split
  · exact Or.inl rfl
  · split
    · exact Or.inl rfl
    · split
      · exact Or.inl rfl
      · exact Or.inr ⟨_, _, rfl⟩

theorem step_read_pc (env : SyncEnv) (fp cid : String) (sec : Section')
    (uid : String) (s : SyncState) :
    (syncStep env fp cid (.awaitingRead sec uid) s).1 = .done ∨
    ∃ content im, (syncStep env fp cid (.awaitingRead sec uid) s).1 =
      .awaitingUpsert sec uid content im := by
  simp only [syncStep]
  split
  · exact Or.inl rfl
  · exact Or.inr ⟨_, _, rfl⟩

theorem step_upsert_pc (env : SyncEnv) (fp cid : String) (sec : Section')
    (uid content : String) (im : InputMetrics) (s : SyncState) :
    (syncStep env fp cid (.awaitingUpsert sec uid content im) s).1 = .done := rfl

theorem step_done_eq (env : SyncEnv) (fp cid : String) (s : SyncState) :
    syncStep env fp cid .done s = (.done, s) := rfl

theorem syncRun_pc_done (env : SyncEnv) (fp cid : String) (s : SyncState) :
    (syncStep env fp cid
      (syncStep env fp cid (syncStep env fp cid .start s).1
        (syncStep env fp cid .start s).2).1
      (syncStep env fp cid (syncStep env fp cid .start s).1
        (syncStep env fp cid .start s).2).2).1 = .done := by
  rcases step_start_pc env fp cid s with h1 | ⟨sec, uid, h1⟩
  · rw [h1, step_done_eq, step_done_eq]
  · rw [h1]
    rcases step_read_pc env fp cid sec uid (syncStep env fp cid .start s).2 with
      h2 | ⟨content, im, h2⟩
    · rw [h2, step_done_eq]
    · rw [h2]
      exact step_upsert_pc env fp cid sec uid content im _

theorem mutexInv_runSched (envA envB : SyncEnv) (fp cidA cidB : String) :
    ∀ (sched : List Bool) (c : SyncPc × SyncPc × SyncState),
      MutexInv fp c →
      MutexInv fp (runSched envA envB fp cidA cidB sched c) := by
  intro sched
  induction sched with
  | nil => intro c h; exact h
  | cons b rest ih =>
    intro c h
    simp only [runSched, List.foldl_cons]
    exact ih _ (mutexInv_step envA envB fp cidA cidB c b h)

/-- C2: for every interleaving of two `syncFile` invocations on the same
path (starting with the path unmarked), the two are never simultaneously
past the in-flight guard; an invocation that reaches the guard while the
path is marked in-flight ends immediately with the state unchanged (so no
second upsert call is made in that window, and nothing is queued); and a
complete run — successful or failed in any of its suspending operations —
leaves the path unmarked, so a failure never blocks future pushes. -/
theorem c2_push_mutual_exclusion :
    (∀ (envA envB : SyncEnv) (fp cidA cidB : String) (sched : List Bool)
       (s0 : SyncState), s0.syncInProgress.contains fp = false →
      ¬((runSched envA envB fp cidA cidB sched (.start, .start, s0)).1.isActive = true ∧
        (runSched envA envB fp cidA cidB sched (.start, .start, s0)).2.1.isActive = true)) ∧
    (∀ (env : SyncEnv) (fp cid : String) (s : SyncState),
      s.syncInProgress.contains fp = true →
      syncStep env fp cid .start s = (.done, s)) ∧
    (∀ (env : SyncEnv) (fp cid : String) (s : SyncState),
      s.syncInProgress.contains fp = false →
      (syncRun env fp cid s).syncInProgress.contains fp = false) := by
  refine ⟨?_, ?_, ?_⟩
  · intro envA envB fp cidA cidB sched s0 h0
    have hinv : MutexInv fp (SyncPc.start, SyncPc.start, s0) := by
      constructor
      · show s0.syncInProgress.contains fp =
          (SyncPc.start.isActive || SyncPc.start.isActive)
        rw [h0]
        rfl
      · show ¬(SyncPc.start.isActive = true ∧ SyncPc.start.isActive = true)
        simp [isActive_start]
    exact (mutexInv_runSched envA envB fp cidA cidB sched _ hinv).2
  · intro env fp cid s h
    cases halg : alGet (lowerStr fp) s.fileToSectionMap with
    | none => simp [syncStep, halg]
    | some sec =>
      simp only [syncStep, halg]
      rw [if_pos h]
  · intro env fp cid s h
    have hinv : MutexInv fp (SyncPc.start, SyncPc.done, s) := by
      constructor
      · show s.syncInProgress.contains fp =
          (SyncPc.start.isActive || SyncPc.done.isActive)
        rw [h]
        rfl
      · show ¬(SyncPc.start.isActive = true ∧ SyncPc.done.isActive = true)
        simp [isActive_start]
    have hrun := mutexInv_runSched env env fp cid cid [true, true, true] _ hinv
    obtain ⟨hr1, _⟩ := hrun
    have hpc := syncRun_pc_done env fp cid s
    rw [show (runSched env env fp cid cid [true, true, true]
        (SyncPc.start, SyncPc.done, s)).1 = (syncStep env fp cid
          (syncStep env fp cid (syncStep env fp cid .start s).1
            (syncStep env fp cid .start s).2).1
          (syncStep env fp cid (syncStep env fp cid .start s).1
            (syncStep env fp cid .start s).2).2).1 from rfl, hpc] at hr1
    rw [show (runSched env env fp cid cid [true, true, true]
        (SyncPc.start, SyncPc.done, s)).2.2 = syncRun env fp cid s from rfl] at hr1
    rw [show (runSched env env fp cid cid [true, true, true]
        (SyncPc.start, SyncPc.done, s)).2.1 = SyncPc.done from rfl] at hr1
    rw [hr1]
    rfl

/-- Witness for C2: a concrete interleaving in which the second invocation
hits the guard mid-flight; a concrete skipped call on a marked state; and
a concrete failed run (file read fails) that still unmarks the path. -/
theorem c2_witness :
    (¬((runSched { userId := some "u", readOk := true, upsertOk := true, now := 0 }
          { userId := some "u", readOk := true, upsertOk := true, now := 0 }
          "f" "c1" "c1" [true, false, false, true, true]
          (.start, .start,
            { fileWatcherActive := true, pendingSaves := [],
              syncInProgress := [],
              fileToSectionMap := [(lowerStr "f", sampleSection)],
              trackedLessons := ["l1"], currentCourseId := some "c1",
              liveTimers := [], nextTimerId := 0, metrics := [],
              fileContents := [("f", "abc")], store := [],
              upsertLog := [] })).1.isActive = true ∧
       (runSched { userId := some "u", readOk := true, upsertOk := true, now := 0 }
          { userId := some "u", readOk := true, upsertOk := true, now := 0 }
          "f" "c1" "c1" [true, false, false, true, true]
          (.start, .start,
            { fileWatcherActive := true, pendingSaves := [],
              syncInProgress := [],
              fileToSectionMap := [(lowerStr "f", sampleSection)],
              trackedLessons := ["l1"], currentCourseId := some "c1",
              liveTimers := [], nextTimerId := 0, metrics := [],
              fileContents := [("f", "abc")], store := [],
              upsertLog := [] })).2.1.isActive = true)) ∧
    syncStep { userId := some "u", readOk := true, upsertOk := true, now := 0 }
        "f" "c1" .start
        { fileWatcherActive := true, pendingSaves := [],
          syncInProgress := ["f"],
          fileToSectionMap := [(lowerStr "f", sampleSection)],
          trackedLessons := ["l1"], currentCourseId := some "c1",
          liveTimers := [], nextTimerId := 0, metrics := [],
          fileContents := [("f", "abc")], store := [], upsertLog := [] } =
      (.done,
        { fileWatcherActive := true, pendingSaves := [],
          syncInProgress := ["f"],
          fileToSectionMap := [(lowerStr "f", sampleSection)],
          trackedLessons := ["l1"], currentCourseId := some "c1",
          liveTimers := [], nextTimerId := 0, metrics := [],
          fileContents := [("f", "abc")], store := [], upsertLog := [] }) ∧
    (syncRun { userId := some "u", readOk := false, upsertOk := true, now := 0 }
        "f" "c1"
        { fileWatcherActive := true, pendingSaves := [],
          syncInProgress := [],
          fileToSectionMap := [(lowerStr "f", sampleSection)],
          trackedLessons := ["l1"], currentCourseId := some "c1",
          liveTimers := [], nextTimerId := 0, metrics := [],
          fileContents := [("f", "abc")], store := [],
          upsertLog := [] }).syncInProgress.contains "f" = false :=
  ⟨c2_push_mutual_exclusion.1 _ _ "f" "c1" "c1" [true, false, false, true, true]
      _ (by decide),
   c2_push_mutual_exclusion.2.1 _ "f" "c1" _ (by decide),
   c2_push_mutual_exclusion.2.2 _ "f" "c1" _ (by decide)⟩

/-! ### Claim C3 — debounce coalescing -/

/-- General form of `alGet` after `alSet`. -/
theorem alGet_alSet {β : Type} (k k' : String) (v : β) (l : List (String × β)) :
    alGet k (alSet k' v l) = if k' = k then some v else alGet k l := by
  by_cases h : k' = k
  · subst h
    simp [alGet_alSet_self]
  · induction l with
    | nil => simp [alSet, alGet, List.find?_cons, h, Ne.symm h]
    | cons p t ih =>
      by_cases hp : p.1 = k'
      · have hpk : (p.1 == k) = false := by simp [hp, h]
        simp only [alSet, hp, beq_self_eq_true, if_true, h, if_false]
        simp only [alGet, List.find?_cons, hpk]
        simp [show (k' == k) = false from by simp [h]]
      · by_cases hpk : p.1 = k
        · simp only [alSet, show (p.1 == k') = false from by simp [hp],
            Bool.false_eq_true, if_false, h, if_false] at ih ⊢
          simp [alGet, List.find?_cons, hpk]
        · simp only [alSet, show (p.1 == k') = false from by simp [hp],
            Bool.false_eq_true, if_false, h, if_false] at ih ⊢
          simp only [alGet, List.find?_cons,
            show (p.1 == k) = false from by simp [hpk]] at ih ⊢
          exact ih

/-- Invariant after a burst of edits to `fp` within one debounce window:
exactly one live timer for `fp` exists; it is the freshest timer (handle
`j`, with `nextTimerId = j + 1`), recorded in `pendingSaves`; all timer
handles are below `nextTimerId`; the file holds `content`; the file is
tracked, not in-flight, and nothing has been pushed. -/
def DebounceInv (fp cid : String) (sec : Section') (j : Nat)
    (content : String) (s : SyncState) : Prop :=
  s.nextTimerId = j + 1 ∧
  alGet fp s.pendingSaves = some j ∧
  s.liveTimers.filter (fun t => t.filePath == fp) =
    [{ tid := j, filePath := fp, courseId := cid,
       delayMs := defaultSyncDelayMs }] ∧
  (∀ t ∈ s.liveTimers, t.filePath ≠ fp → t.tid < j) ∧
  alGet fp s.fileContents = some content ∧
  alGet (lowerStr fp) s.fileToSectionMap = some sec ∧
  s.syncInProgress.contains fp = false ∧
  s.upsertLog = []

theorem debounceInv_find (fp cid : String) (sec : Section') (j : Nat)
    (content : String) (s : SyncState)
    (h : DebounceInv fp cid sec j content s) :
    s.liveTimers.find? (fun t => t.tid == j) =
      some { tid := j, filePath := fp, courseId := cid,
             delayMs := defaultSyncDelayMs } := by
  obtain ⟨_, _, h3, h4, _⟩ := h
  have hsplit : ∀ l : List TimerEntry,
      (∀ t ∈ l, t.filePath ≠ fp → t.tid < j) →
      l.filter (fun t => t.filePath == fp) =
        [{ tid := j, filePath := fp, courseId := cid,
           delayMs := defaultSyncDelayMs }] →
      l.find? (fun t => t.tid == j) =
        some { tid := j, filePath := fp, courseId := cid,
               delayMs := defaultSyncDelayMs } := by
    intro l
    induction l with
    | nil => intro _ hf; simp [List.filter] at hf
    | cons t ts ih =>
      intro hb hf
      by_cases hfp : t.filePath = fp
      · have hcons : t :: ts.filter (fun t => t.filePath == fp) =
            [{ tid := j, filePath := fp, courseId := cid,
               delayMs := defaultSyncDelayMs }] := by
          simpa [List.filter_cons, hfp] using hf
        have ht := (List.cons_eq_cons.mp hcons).1
        rw [ht]
        simp [List.find?_cons]
      · have hf' : ts.filter (fun t => t.filePath == fp) =
            [{ tid := j, filePath := fp, courseId := cid,
               delayMs := defaultSyncDelayMs }] := by
          simpa [List.filter_cons, hfp] using hf
        have htj : t.tid ≠ j :=
          Nat.ne_of_lt (hb t (by simp) hfp)
        rw [List.find?_cons_of_neg _ (by simpa using htj)]
        exact ih (fun x hx hxp => hb x (List.mem_cons_of_mem _ hx) hxp) hf'
  exact hsplit s.liveTimers h4 h3

theorem debounceInv_base (fp cid : String) (sec : Section') (c : String)
    (s0 : SyncState)
    (H1 : alGet (lowerStr fp) s0.fileToSectionMap = some sec)
    (H2 : alGet fp s0.pendingSaves = none)
    (H3 : s0.liveTimers.filter (fun t => t.filePath == fp) = [])
    (H4 : ∀ t ∈ s0.liveTimers, t.tid < s0.nextTimerId)
    (H5 : s0.syncInProgress.contains fp = false)
    (H6 : s0.upsertLog = []) :
    DebounceInv fp cid sec s0.nextTimerId c (observeEdit s0 fp cid c) := by
  unfold observeEdit queueSync
  simp only [H2]
  refine ⟨rfl, alGet_alSet_self _ _ _, ?_, ?_, alGet_alSet_self _ _ _,
    H1, H5, H6⟩
  · rw [List.filter_append, H3]
    simp [List.filter]
  · intro t ht hfp
    rcases List.mem_append.mp ht with hmem | hmem
    · exact H4 t hmem
    · simp only [List.mem_singleton] at hmem
      subst hmem
      exact absurd rfl hfp

theorem debounceInv_step (fp cid : String) (sec : Section') (j : Nat)
    (content c : String) (s : SyncState)
    (h : DebounceInv fp cid sec j content s) :
    DebounceInv fp cid sec (j + 1) c (observeEdit s fp cid c) := by
  obtain ⟨h1, h2, h3, h4, h5, h6, h7, h8⟩ := h
  unfold observeEdit queueSync
  simp only [h2]
  have hfilters : List.filter (fun t => t.filePath == fp)
      (List.filter (fun t => decide (t.tid ≠ j)) s.liveTimers) = [] := by
    rw [List.filter_filter]
    have hcomm : (fun t : TimerEntry =>
        (t.filePath == fp) && decide (t.tid ≠ j)) =
        (fun t : TimerEntry => decide (t.tid ≠ j) && (t.filePath == fp)) :=
      funext (fun t => Bool.and_comm _ _)
    rw [hcomm, ← List.filter_filter, h3]
    simp [List.filter]
  refine ⟨by rw [h1], ?_, ?_, ?_, alGet_alSet_self _ _ _, h6, h7, h8⟩
  · rw [alGet_alSet_self, h1]
  · rw [List.filter_append, hfilters, h1]
    simp [List.filter]
  · intro t ht hfp
    rcases List.mem_append.mp ht with hmem | hmem
    · have hmem' := List.mem_filter.mp hmem
      have := h4 t hmem'.1 hfp
      omega
    · simp only [List.mem_singleton] at hmem
      subst hmem
      exact absurd rfl hfp

theorem debounceInv_fold (fp cid : String) (sec : Section') :
    ∀ (cs : List String) (s : SyncState) (j : Nat) (content : String),
      DebounceInv fp cid sec j content s →
      DebounceInv fp cid sec (j + cs.length) (cs.getLastD content)
        (cs.foldl (fun st c => observeEdit st fp cid c) s) := by
  intro cs
  induction cs with
  | nil =>
    intro s j content h
    simpa using h
  | cons c rest ih =>
    intro s j content h
    simp only [List.foldl_cons, List.getLastD_cons, List.length_cons]
    have hnext := ih (observeEdit s fp cid c) (j + 1) c
      (debounceInv_step fp cid sec j content c s h)
    rw [show j + (rest.length + 1) = j + 1 + rest.length from by omega]
    exact hnext

theorem syncRun_upsertLog (env : SyncEnv) (fp cid : String) (sec : Section')
    (u content : String) (s : SyncState)
    (hmap : alGet (lowerStr fp) s.fileToSectionMap = some sec)
    (hni : s.syncInProgress.contains fp = false)
    (huid : env.userId = some u)
    (hro : env.readOk = true)
    (hcontent : alGet fp s.fileContents = some content)
    (huo : env.upsertOk = true) :
    (syncRun env fp cid s).upsertLog = s.upsertLog ++ [(fp, sec.id, content)] := by
  have e1 : syncStep env fp cid .start s =
      (.awaitingRead sec u,
        { s with syncInProgress := fp :: s.syncInProgress }) := by
    simp only [syncStep, hmap, huid]
    rw [if_neg (by simpa using hni)]
  have e2 : syncStep env fp cid (.awaitingRead sec u)
      { s with syncInProgress := fp :: s.syncInProgress } =
      (.awaitingUpsert sec u content
        (getAndReset s.metrics fp content.length env.now).1,
       { s with syncInProgress := fp :: s.syncInProgress,
                metrics := (getAndReset s.metrics fp content.length env.now).2 }) := by
    simp only [syncStep, hro, if_true]
    rw [show alGet fp ({ s with syncInProgress := fp :: s.syncInProgress } :
        SyncState).fileContents = some content from hcontent]
  simp only [syncRun]
  simp only [e1]
  simp only [e2]
  simp only [syncStep, huo, if_true]
  simp [removeInFlight]

/-- The workspace-relative path of the sample exercise. -/
def samplePath : String := "/w/topics/exercise_3_intro_to_loops.py"

/-- A freshly tracked sync state: `sampleSection` tracked under
`samplePath`, nothing pending, nothing pushed. -/
def sampleSyncState : SyncState :=
  { fileWatcherActive := true, pendingSaves := [], syncInProgress := [],
    fileToSectionMap := [(lowerStr samplePath, sampleSection)],
    trackedLessons := ["l1"], currentCourseId := some "c1", liveTimers := [],
    nextTimerId := 0, metrics := [], fileContents := [], store := [],
    upsertLog := [] }

/-- A push environment in which every suspending operation succeeds. -/
def sampleEnv : SyncEnv :=
  { userId := some "u", readOk := true, upsertOk := true, now := 9 }

/-- C3: scheduling a sync while a timer for the same path is pending
cancels the pending timer (its handle is gone from the live timers) and
records a fresh one; consequently a burst of `N` edits to one file inside
the debounce window leaves exactly one live timer for that path (armed
with the default 2000 ms delay), and firing it produces exactly one push
whose content is the file content at fire time — the last edit — never an
intermediate state. -/
theorem c3_debounce_coalescing :
    (∀ (s : SyncState) (fp cid : String) (delay tid : Nat),
      alGet fp s.pendingSaves = some tid → tid < s.nextTimerId →
      (queueSync s fp cid delay).liveTimers.all (fun t => t.tid ≠ tid) = true ∧
      alGet fp (queueSync s fp cid delay).pendingSaves = some s.nextTimerId) ∧
    (∀ (fp cid u c0 : String) (cs : List String) (sec : Section')
       (env : SyncEnv) (s0 : SyncState),
      alGet (lowerStr fp) s0.fileToSectionMap = some sec →
      alGet fp s0.pendingSaves = none →
      s0.liveTimers.filter (fun t => t.filePath == fp) = [] →
      (∀ t ∈ s0.liveTimers, t.tid < s0.nextTimerId) →
      s0.syncInProgress.contains fp = false →
      s0.upsertLog = [] →
      env.userId = some u → env.readOk = true → env.upsertOk = true →
      alGet fp ((c0 :: cs).foldl
          (fun st c => observeEdit st fp cid c) s0).pendingSaves =
        some (((c0 :: cs).foldl
          (fun st c => observeEdit st fp cid c) s0).nextTimerId - 1) ∧
      ((c0 :: cs).foldl
          (fun st c => observeEdit st fp cid c) s0).liveTimers.filter
          (fun t => t.filePath == fp) =
        [{ tid := ((c0 :: cs).foldl
              (fun st c => observeEdit st fp cid c) s0).nextTimerId - 1,
           filePath := fp, courseId := cid,
           delayMs := defaultSyncDelayMs }] ∧
      (fireTimer ((c0 :: cs).foldl (fun st c => observeEdit st fp cid c) s0)
          (((c0 :: cs).foldl
            (fun st c => observeEdit st fp cid c) s0).nextTimerId - 1)
          env).upsertLog = [(fp, sec.id, cs.getLastD c0)]) := by
  constructor
  · intro s fp cid delay tid hpend hlt
    simp only [queueSync, hpend]
    constructor
    · rw [List.all_eq_true]
      intro x hx
      rcases List.mem_append.mp hx with hmem | hmem
      · have hp := (List.mem_filter.mp hmem).2
        simpa using hp
      · simp only [List.mem_singleton] at hmem
        subst hmem
        simp only [decide_eq_true_eq]
        omega
    · exact alGet_alSet_self _ _ _
  · intro fp cid u c0 cs sec env s0 hmap hpend hfilter hbound hni hlog
      huid hro huo
    simp only [List.foldl_cons]
    have hbase := debounceInv_base fp cid sec c0 s0 hmap hpend hfilter
      hbound hni hlog
    have hinv := debounceInv_fold fp cid sec cs _ _ _ hbase
    obtain ⟨h1, h2, h3, h4, h5, h6, h7, h8⟩ := hinv
    have hj : (cs.foldl (fun st c => observeEdit st fp cid c)
        (observeEdit s0 fp cid c0)).nextTimerId - 1 =
        s0.nextTimerId + cs.length := by omega
    refine ⟨by rw [hj]; exact h2, by rw [hj]; exact h3, ?_⟩
    rw [hj]
    have hfind := debounceInv_find fp cid sec (s0.nextTimerId + cs.length)
      (cs.getLastD c0) _ ⟨h1, h2, h3, h4, h5, h6, h7, h8⟩
    simp only [fireTimer, hfind]
    set sF := List.foldl (fun st c => observeEdit st fp cid c)
      (observeEdit s0 fp cid c0) cs with hsF
    have hrun := syncRun_upsertLog env fp cid sec u (cs.getLastD c0)
      { sF with liveTimers := List.filter (fun t => t.tid ≠ s0.nextTimerId + cs.length) sF.liveTimers }
      h6 h7 huid hro h5 huo
    rw [hrun]
    simp [h8]

/-- Witness for C3: a pending timer with handle 0 is cancelled and
replaced by a fresh one, and two edits (`"a"` then `"ab"`) followed by the
timer firing produce exactly one push carrying `"ab"`. -/
theorem c3_witness :
    (queueSync { sampleSyncState with pendingSaves := [("f", 0)], nextTimerId := 1 } "f" "c1" 2000).liveTimers.all
      (fun t => t.tid ≠ 0) = true ∧
    (fireTimer (("a" :: ["ab"]).foldl
        (fun st c => observeEdit st samplePath "c1" c) sampleSyncState)
        ((("a" :: ["ab"]).foldl
          (fun st c => observeEdit st samplePath "c1" c)
          sampleSyncState).nextTimerId - 1)
        sampleEnv).upsertLog =
      [(samplePath, sampleSection.id, ["ab"].getLastD "a")] :=
  ⟨(c3_debounce_coalescing.1 { sampleSyncState with pendingSaves := [("f", 0)], nextTimerId := 1 } "f" "c1" 2000 0 rfl (by decide)).1,
   (c3_debounce_coalescing.2 samplePath "c1" "u" "a" ["ab"] sampleSection
      sampleEnv sampleSyncState rfl rfl rfl (by simp [sampleSyncState])
      rfl rfl rfl rfl rfl).2.2⟩

/-! ### Claim C8 — course-switch teardown -/

theorem mem_setAdd_self (x : String) (l : List String) : x ∈ setAdd x l := by
  unfold setAdd
  split
  · next h => simpa using h
  · exact List.mem_cons_self x l

theorem mem_setAdd_of_mem (x y : String) (l : List String) (h : y ∈ l) :
    y ∈ setAdd x l := by
  unfold setAdd
  split
  · exact h
  · exact List.mem_cons_of_mem _ h

/-- The per-section fold of `trackLesson` touches only the file map. -/
theorem trackFold_fields (p : String) :
    ∀ (secs : List Section') (st : SyncState),
      (secs.foldl (fun st sec =>
        if sec.stype = "code" then
          { st with fileToSectionMap := alSet (lowerStr (p ++ "/" ++ exerciseFileName sec)) sec st.fileToSectionMap }
        else st) st).pendingSaves = st.pendingSaves ∧
      (secs.foldl (fun st sec =>
        if sec.stype = "code" then
          { st with fileToSectionMap := alSet (lowerStr (p ++ "/" ++ exerciseFileName sec)) sec st.fileToSectionMap }
        else st) st).liveTimers = st.liveTimers ∧
      (secs.foldl (fun st sec =>
        if sec.stype = "code" then
          { st with fileToSectionMap := alSet (lowerStr (p ++ "/" ++ exerciseFileName sec)) sec st.fileToSectionMap }
        else st) st).trackedLessons = st.trackedLessons ∧
      (secs.foldl (fun st sec =>
        if sec.stype = "code" then
          { st with fileToSectionMap := alSet (lowerStr (p ++ "/" ++ exerciseFileName sec)) sec st.fileToSectionMap }
        else st) st).currentCourseId = st.currentCourseId := by
  intro secs
  induction secs with
  | nil => intro st; exact ⟨rfl, rfl, rfl, rfl⟩
  | cons sec rest ih =>
    intro st
    simp only [List.foldl_cons]
    by_cases h : sec.stype = "code"
    · rw [if_pos h]
      exact ih _
    · rw [if_neg h]
      exact ih _

/-- Every entry of the fold-built file map comes from the supplied
sections or from the starting map. -/
theorem trackFold_mem (p : String) :
    ∀ (secs : List Section') (st : SyncState) (k : String) (v : Section'),
      alGet k ((secs.foldl (fun st sec =>
        if sec.stype = "code" then
          { st with fileToSectionMap := alSet (lowerStr (p ++ "/" ++ exerciseFileName sec)) sec st.fileToSectionMap }
        else st) st).fileToSectionMap) = some v →
      v ∈ secs ∨ alGet k st.fileToSectionMap = some v := by
  intro secs
  induction secs with
  | nil => intro st k v h; exact Or.inr h
  | cons sec rest ih =>
    intro st k v hget
    simp only [List.foldl_cons] at hget
    by_cases h : sec.stype = "code"
    · rw [if_pos h] at hget
      rcases ih _ k v hget with hm | hget2
      · exact Or.inl (List.mem_cons_of_mem _ hm)
      · have hget3 : alGet k (alSet (lowerStr (p ++ "/" ++ exerciseFileName sec)) sec st.fileToSectionMap) = some v := hget2
        rw [alGet_alSet] at hget3
        by_cases hk : lowerStr (p ++ "/" ++ exerciseFileName sec) = k
        · rw [if_pos hk] at hget3
          have : sec = v := by simpa using hget3
          exact Or.inl (this ▸ List.mem_cons_self sec rest)
        · rw [if_neg hk] at hget3
          exact Or.inr hget3
    · rw [if_neg h] at hget
      rcases ih _ k v hget with hm | hget2
      · exact Or.inl (List.mem_cons_of_mem _ hm)
      · exact Or.inr hget2

/-- C8 (amended): tracking a lesson of a *different* course empties the
pending-timer entries, the file map (only the new lesson's sections
remain) and the tracked-lesson set, and records the new course; the
underlying debounce timers are *not* cancelled, but a stale timer whose
file is not tracked in the new session performs no push when it fires;
tracking a lesson of the *same* course preserves the pending entries and
live timers and accumulates the lesson. -/
theorem c8_course_switch_teardown :
    (∀ (s : SyncState) (p l : String) (secs : List Section')
       (c c' : String) (avail : Bool),
      s.currentCourseId = some c → c ≠ c' →
      (trackLesson s p l secs c' avail).pendingSaves = [] ∧
      (trackLesson s p l secs c' avail).trackedLessons = [l] ∧
      (trackLesson s p l secs c' avail).currentCourseId = some c' ∧
      (∀ k v, alGet k (trackLesson s p l secs c' avail).fileToSectionMap =
        some v → v ∈ secs)) ∧
    (∀ (s : SyncState) (tid : Nat) (env : SyncEnv) (t : TimerEntry),
      s.liveTimers.find? (fun x => x.tid == tid) = some t →
      alGet (lowerStr t.filePath) s.fileToSectionMap = none →
      (fireTimer s tid env).upsertLog = s.upsertLog ∧
      (fireTimer s tid env).store = s.store) ∧
    (∀ (s : SyncState) (p l : String) (secs : List Section')
       (c : String) (avail : Bool),
      s.currentCourseId = some c →
      (trackLesson s p l secs c avail).pendingSaves = s.pendingSaves ∧
      (trackLesson s p l secs c avail).liveTimers = s.liveTimers ∧
      l ∈ (trackLesson s p l secs c avail).trackedLessons ∧
      (∀ x ∈ s.trackedLessons,
        x ∈ (trackLesson s p l secs c avail).trackedLessons)) := by
  refine ⟨?_, ?_, ?_⟩
  · intro s p l secs c c' avail hc hne
    simp only [trackLesson, hc]
    rw [if_pos hne]
    refine ⟨?_, ?_, ?_, ?_⟩
    · split <;> rw [(trackFold_fields p secs _).1] <;> exact rfl
    · split <;> rw [(trackFold_fields p secs _).2.2.1] <;> exact rfl
    · split <;> rw [(trackFold_fields p secs _).2.2.2] <;> exact rfl
    · intro k v
      split <;>
      · intro hget
        rcases trackFold_mem p secs _ k v hget with hm | hbad
        · exact hm
        · simp [alGet, stopWatching] at hbad
  · intro s tid env t hfind hmap
    simp only [fireTimer, hfind]
    have e1 : syncStep env t.filePath t.courseId .start { s with liveTimers := List.filter (fun u => u.tid ≠ tid) s.liveTimers } = (.done, { s with liveTimers := List.filter (fun u => u.tid ≠ tid) s.liveTimers }) := by
      simp only [syncStep, hmap]
    simp only [syncRun, e1, step_done_eq]
    exact ⟨trivial, trivial⟩
  · intro s p l secs c avail hc
    have hcc : ¬(c ≠ c) := fun h => h rfl
    simp only [trackLesson, hc]
    rw [if_neg hcc]
    refine ⟨?_, ?_, ?_, ?_⟩
    · split <;> rw [(trackFold_fields p secs _).1] <;> exact rfl
    · split <;> rw [(trackFold_fields p secs _).2.1] <;> exact rfl
    · have hmem : l ∈ setAdd l s.trackedLessons := mem_setAdd_self l _
      split <;> (rw [(trackFold_fields p secs _).2.2.1]; exact hmem)
    · intro x hx
      have hmem : x ∈ setAdd l s.trackedLessons := mem_setAdd_of_mem l x _ hx
      split <;> (rw [(trackFold_fields p secs _).2.2.1]; exact hmem)

/-- Witness for C8: a different-course `trackLesson` call empties the
pending entries; a stale timer for an untracked file fires without
pushing; a same-course call preserves the pending entries. -/
theorem c8_witness :
    (trackLesson { sampleSyncState with pendingSaves := [(samplePath, 7)] } "/w2" "l2" [] "c2" true).pendingSaves = [] ∧
    (fireTimer { sampleSyncState with fileToSectionMap := [], liveTimers := [{ tid := 0, filePath := samplePath, courseId := "c1", delayMs := 2000 }], nextTimerId := 1 } 0 sampleEnv).upsertLog =
      ({ sampleSyncState with fileToSectionMap := [], liveTimers := [{ tid := 0, filePath := samplePath, courseId := "c1", delayMs := 2000 }], nextTimerId := 1 } : SyncState).upsertLog ∧
    (trackLesson sampleSyncState "/w" "l9" [] "c1" true).pendingSaves =
      sampleSyncState.pendingSaves :=
  ⟨(c8_course_switch_teardown.1 { sampleSyncState with pendingSaves := [(samplePath, 7)] } "/w2" "l2" [] "c1" "c2" true rfl (by decide)).1,
   (c8_course_switch_teardown.2.1 { sampleSyncState with fileToSectionMap := [], liveTimers := [{ tid := 0, filePath := samplePath, courseId := "c1", delayMs := 2000 }], nextTimerId := 1 } 0 sampleEnv { tid := 0, filePath := samplePath, courseId := "c1", delayMs := 2000 } rfl rfl).1,
   (c8_course_switch_teardown.2.2 sampleSyncState "/w" "l9" [] "c1" true rfl).1⟩

/-- Counterexample to C8 as stated: switching the course discards the
`pendingSaves` entries but does *not* cancel the underlying debounce
timer — `stopWatching` calls `pendingSaves.clear()` without any
`clearTimeout`, so the timer stays live after the switch. -/
theorem c8_counterexample :
    (trackLesson { sampleSyncState with pendingSaves := [(samplePath, 0)], liveTimers := [{ tid := 0, filePath := samplePath, courseId := "c1", delayMs := 2000 }], nextTimerId := 1 } "/w2" "l2" [] "c2" true).pendingSaves = [] ∧
    (trackLesson { sampleSyncState with pendingSaves := [(samplePath, 0)], liveTimers := [{ tid := 0, filePath := samplePath, courseId := "c1", delayMs := 2000 }], nextTimerId := 1 } "/w2" "l2" [] "c2" true).liveTimers =
      [{ tid := 0, filePath := samplePath, courseId := "c1", delayMs := 2000 }] := by
  exact ⟨rfl, rfl⟩

end CSLP
